import Mathlib

/-!
Verification of the payment scheduling and status engine of the landten
rent-billing backend (`src/backend/app/services/payment_service.py` together
with the models in `src/backend/app/models/payment.py` and
`src/backend/app/models/payment_schedule.py`).

Conventions of the shallow embedding:
* Python `datetime.date` values are modelled by the `Date` structure
  (year/month/day as naturals) with the proleptic Gregorian calendar rules
  used by `calendar.monthrange`.
* `dateutil.relativedelta(months=m)` is `Date.addMonths` (day clamped to the
  length of the target month); `relativedelta(days=n)` is `Date.addDays`.
* Python float amounts are modelled exactly over `ℚ`; `round(x, 2)` is
  `round2` (round to two decimal places).
* The SQL session is modelled as the list of all payment rows; queries are
  list filters, `session.add` is list append, and `date.today()` is an
  explicitly passed `today` argument (the spec's injectable Clock).
-/

/-- Gregorian leap-year rule, as used by Python's `calendar` module. -/
def isLeap (y : Nat) : Bool :=
  y % 4 == 0 && (y % 100 != 0 || y % 400 == 0)

/-- `calendar.monthrange(y, m)[1]`: the number of days in a month. -/
def daysInMonth (y m : Nat) : Nat :=
  if m = 2 then (if isLeap y then 29 else 28)
  else if m = 4 ∨ m = 6 ∨ m = 9 ∨ m = 11 then 30
  else 31

/-- A calendar date, mirroring Python's `datetime.date`. -/
structure Date where
  year : Nat
  month : Nat
  day : Nat
deriving DecidableEq

/-- A date is valid when its month and day are in calendar range (year at
least 1, as for `datetime.date`). -/
def Date.IsValid (d : Date) : Prop :=
  1 ≤ d.year ∧ 1 ≤ d.month ∧ d.month ≤ 12 ∧ 1 ≤ d.day ∧
    d.day ≤ daysInMonth d.year d.month

instance (d : Date) : Decidable d.IsValid := by
  unfold Date.IsValid; exact inferInstance

/-- Strict lexicographic order on dates; for valid dates this agrees with
Python's `date` comparison. -/
def Date.lt (a b : Date) : Prop :=
  a.year < b.year ∨ (a.year = b.year ∧
    (a.month < b.month ∨ (a.month = b.month ∧ a.day < b.day)))

/-- Non-strict order on dates. -/
def Date.le (a b : Date) : Prop :=
  Date.lt a b ∨ a = b

instance (a b : Date) : Decidable (Date.lt a b) := by
  unfold Date.lt; exact inferInstance

instance (a b : Date) : Decidable (Date.le a b) := by
  unfold Date.le; exact inferInstance

/-- Month counter: number of months since year 0, used to measure progress
of the period-search loop. -/
def Date.monthIndex (d : Date) : Nat :=
  d.year * 12 + d.month

/-- `d + relativedelta(months=m)` for `m ≥ 0`: advance the month, clamping
the day to the length of the target month (dateutil semantics). -/
def Date.addMonths (d : Date) (m : Nat) : Date :=
  let t := d.month - 1 + m
  let y := d.year + t / 12
  let mo := t % 12 + 1
  ⟨y, mo, min d.day (daysInMonth y mo)⟩

/-- The day before `d` (`d - relativedelta(days=1)`). -/
def Date.prevDay (d : Date) : Date :=
  if 2 ≤ d.day then ⟨d.year, d.month, d.day - 1⟩
  else if 2 ≤ d.month then ⟨d.year, d.month - 1, daysInMonth d.year (d.month - 1)⟩
  else ⟨d.year - 1, 12, 31⟩

/-- The day after `d` (`d + relativedelta(days=1)`). -/
def Date.nextDay (d : Date) : Date :=
  if d.day < daysInMonth d.year d.month then ⟨d.year, d.month, d.day + 1⟩
  else if d.month < 12 then ⟨d.year, d.month + 1, 1⟩
  else ⟨d.year + 1, 1, 1⟩

/-- `d + relativedelta(days=n)` for `n ≥ 0`. -/
def Date.addDays (d : Date) : Nat → Date
  | 0 => d
  | n + 1 => Date.addDays (Date.nextDay d) n

theorem daysInMonth_pos (y m : Nat) : 28 ≤ daysInMonth y m := by
  unfold daysInMonth
  split
  · split <;> omega
  · split <;> omega

theorem daysInMonth_le (y m : Nat) : daysInMonth y m ≤ 31 := by
  unfold daysInMonth
  split
  · split <;> omega
  · split <;> omega

theorem Date.not_le_iff {a b : Date} : ¬ Date.le a b ↔ Date.lt b a := by
  obtain ⟨y1, m1, d1⟩ := a
  obtain ⟨y2, m2, d2⟩ := b
  simp only [Date.le, Date.lt, Date.mk.injEq, not_or, not_and, not_lt]
  constructor
  · intro h; omega
  · intro h; omega

theorem Date.lt_irrefl (a : Date) : ¬ Date.lt a a := by
  simp [Date.lt]

theorem Date.lt_trans {a b c : Date} (h1 : Date.lt a b) (h2 : Date.lt b c) :
    Date.lt a c := by
  obtain ⟨y1, m1, d1⟩ := a
  obtain ⟨y2, m2, d2⟩ := b
  obtain ⟨y3, m3, d3⟩ := c
  simp only [Date.lt] at h1 h2 ⊢
  omega

theorem Date.lt_of_le_of_lt {a b c : Date} (h1 : Date.le a b) (h2 : Date.lt b c) :
    Date.lt a c := by
  rcases h1 with h1 | rfl
  · exact Date.lt_trans h1 h2
  · exact h2

theorem Date.le_trans {a b c : Date} (h1 : Date.le a b) (h2 : Date.le b c) :
    Date.le a c := by
  rcases h2 with h2 | rfl
  · exact Or.inl (Date.lt_of_le_of_lt h1 h2)
  · exact h1

theorem Date.le_of_lt {a b : Date} (h : Date.lt a b) : Date.le a b :=
  Or.inl h

theorem Date.monthIndex_le_of_lt {a b : Date} (ha : a.IsValid) (hb : b.IsValid)
    (h : Date.lt a b) : a.monthIndex ≤ b.monthIndex := by
  simp only [Date.lt] at h
  simp only [Date.IsValid] at ha hb
  simp only [Date.monthIndex]
  omega

theorem Date.lt_of_monthIndex_lt {a b : Date} (ha : a.IsValid) (hb : b.IsValid)
    (h : a.monthIndex < b.monthIndex) : Date.lt a b := by
  simp only [Date.IsValid] at ha hb
  simp only [Date.monthIndex] at h
  simp only [Date.lt]
  omega

theorem Date.monthIndex_inj {a b : Date} (ha : a.IsValid) (hb : b.IsValid)
    (h : a.monthIndex = b.monthIndex) : a.year = b.year ∧ a.month = b.month := by
  simp only [Date.IsValid] at ha hb
  simp only [Date.monthIndex] at h
  omega

theorem Date.monthIndex_addMonths (d : Date) (m : Nat) (hd : 1 ≤ d.month) :
    (d.addMonths m).monthIndex = d.monthIndex + m := by
  obtain ⟨y, mo, dy⟩ := d
  simp only [Date.addMonths, Date.monthIndex]
  have := Nat.div_add_mod (mo - 1 + m) 12
  simp only at hd
  omega

theorem Date.addMonths_isValid {d : Date} (m : Nat) (hd : d.IsValid) :
    (d.addMonths m).IsValid := by
  obtain ⟨y, mo, dy⟩ := d
  simp only [Date.IsValid] at hd ⊢
  simp only [Date.addMonths]
  refine ⟨by omega, by omega, by omega, ?_, ?_⟩
  · have := daysInMonth_pos (y + (mo - 1 + m) / 12) ((mo - 1 + m) % 12 + 1)
    omega
  · exact Nat.min_le_right _ _

theorem Date.addMonths_day_le (d : Date) (m : Nat) :
    (d.addMonths m).day ≤ d.day := by
  simp only [Date.addMonths]
  exact Nat.min_le_left _ _

theorem Date.addMonths_year_ge (d : Date) (m : Nat) :
    d.year ≤ (d.addMonths m).year := by
  simp only [Date.addMonths]
  omega

theorem Date.nextDay_isValid {d : Date} (hd : d.IsValid) :
    d.nextDay.IsValid := by
  obtain ⟨y, mo, dy⟩ := d
  simp only [Date.IsValid] at hd
  simp only [Date.nextDay]
  split
  · simp [Date.IsValid]; omega
  · split
    · have := daysInMonth_pos y (mo + 1)
      simp [Date.IsValid]
      omega
    · simp [Date.IsValid, daysInMonth]

theorem Date.lt_nextDay (d : Date) : Date.lt d d.nextDay := by
  obtain ⟨y, mo, dy⟩ := d
  simp only [Date.nextDay]
  split
  · exact Or.inr ⟨rfl, Or.inr ⟨rfl, Nat.lt_succ_self dy⟩⟩
  · split
    · exact Or.inr ⟨rfl, Or.inl (Nat.lt_succ_self mo)⟩
    · exact Or.inl (Nat.lt_succ_self y)

theorem Date.addDays_isValid {d : Date} (n : Nat) (hd : d.IsValid) :
    (d.addDays n).IsValid := by
  induction n generalizing d with
  | zero => exact hd
  | succ k ih => exact ih (Date.nextDay_isValid hd)

theorem Date.lt_addDays (d : Date) (n : Nat) (hn : 1 ≤ n) :
    Date.lt d (d.addDays n) := by
  induction n generalizing d with
  | zero => omega
  | succ k ih =>
    show Date.lt d ((d.nextDay).addDays k)
    rcases Nat.eq_zero_or_pos k with hk | hk
    · subst hk; exact Date.lt_nextDay d
    · exact Date.lt_trans (Date.lt_nextDay d) (ih d.nextDay hk)

theorem Date.le_addDays (d : Date) (n : Nat) : Date.le d (d.addDays n) := by
  cases n with
  | zero => exact Or.inr rfl
  | succ k => exact Date.le_of_lt (Date.lt_addDays d (k + 1) (by omega))

/-- When the addition stays inside the month, `addDays` just adds to the
day component. -/
theorem Date.addDays_in_month {d : Date} (n : Nat) (hd : d.IsValid)
    (h : d.day + n ≤ daysInMonth d.year d.month) :
    d.addDays n = ⟨d.year, d.month, d.day + n⟩ := by
  induction n generalizing d with
  | zero => simp [Date.addDays]
  | succ k ih =>
    obtain ⟨y, mo, dy⟩ := d
    simp only [Date.IsValid] at hd
    have h : dy + (k + 1) ≤ daysInMonth y mo := h
    show Date.addDays (Date.nextDay ⟨y, mo, dy⟩) k = _
    have hnext : Date.nextDay ⟨y, mo, dy⟩ = ⟨y, mo, dy + 1⟩ := by
      simp only [Date.nextDay]
      rw [if_pos (show dy < daysInMonth y mo by omega)]
    rw [hnext]
    have := @ih ⟨y, mo, dy + 1⟩
      (by simp [Date.IsValid]; omega) (show dy + 1 + k ≤ daysInMonth y mo by omega)
    simp only at this
    rw [this]
    show (⟨y, mo, dy + 1 + k⟩ : Date) = ⟨y, mo, dy + (k + 1)⟩
    congr 1
    omega

/-! ## Data model (`app/models/payment.py`, `app/models/payment_schedule.py`) -/

/-- `PaymentFrequency` from `app/models/payment_schedule.py`. -/
inductive PaymentFrequency where
  | MONTHLY
  | BI_MONTHLY
  | QUARTERLY
deriving DecidableEq

/-- `PaymentStatus` from `app/models/payment.py`.

Modelled from the spec: the `VERIFYING` member is absent from the enum in
`app/models/payment.py` in this snapshot, but the repository's own tests
(`tests/test_services/test_payment_service.py`,
`tests/test_models/test_payment.py`) use `PaymentStatus.VERIFYING`, and the
spec lists it among the status values; it is included here following the
spec's status set. All other members are taken from the source enum. -/
inductive PaymentStatus where
  | UPCOMING
  | PENDING
  | ON_TIME
  | LATE
  | OVERDUE
  | WAIVED
  | VERIFYING
deriving DecidableEq

/-- `PaymentSchedule` from `app/models/payment_schedule.py` (the spec's
BillingConfiguration). The `id` primary key is modelled as a natural
number; `created_at`/`updated_at` bookkeeping timestamps are omitted as no
engine code reads them. -/
structure PaymentSchedule where
  id : Nat
  tenantId : Nat
  amount : ℚ
  frequency : PaymentFrequency
  dueDay : Nat
  windowDays : Nat
  startDate : Date
  isActive : Bool
deriving DecidableEq

/-- `Payment` from `app/models/payment.py` (the spec's PaymentObligation).
The `id` primary key and `created_at` are omitted (no engine code reads
them); `updated_at` is modelled as an abstract tick written by the status
updater, with `0` standing for the creation-time default. -/
structure Payment where
  tenantId : Nat
  scheduleId : Option Nat
  periodStart : Date
  periodEnd : Date
  amountDue : ℚ
  dueDate : Date
  windowEndDate : Date
  status : PaymentStatus
  paidDate : Option Date
  paymentReference : Option String
  notes : Option String
  isManual : Bool
  updatedAt : Nat
deriving DecidableEq

/-! ## The payment service (`app/services/payment_service.py`) -/

/-- Python's `round(x, 2)`: round to two decimal places (float amounts are
modelled exactly over `ℚ`). -/
def round2 (q : ℚ) : ℚ :=
  (round (q * 100) : ℚ) / 100

/-- `calculate_prorated_rent` (lines 17-47): prorated amount and due date
(3 days from move-in) for a partial month. -/
def calculateProratedRent (monthlyRent : ℚ) (moveInDate : Date) : ℚ × Date :=
  let daysInMo : Nat := daysInMonth moveInDate.year moveInDate.month
  let remainingDays : Nat := daysInMo - moveInDate.day + 1
  let proratedAmount : ℚ := monthlyRent / (daysInMo : ℚ) * (remainingDays : ℚ)
  (round2 proratedAmount, moveInDate.addDays 3)

/-- `create_prorated_payment` (lines 50-111). The `session` is the list of
payment rows; the created payment is returned for the caller to append.
`today` is the injected `date.today()`; the human-readable `notes` string
is abstracted to a constant. -/
def createProratedPayment (tenantId : Nat) (monthlyRent : ℚ) (moveInDate : Date)
    (today : Date) : Option Payment :=
  if moveInDate.day ≤ 5 then none
  else
    some { tenantId := tenantId, scheduleId := none, periodStart := moveInDate,
           periodEnd :=
             ⟨moveInDate.year, moveInDate.month,
              daysInMonth moveInDate.year moveInDate.month⟩,
           amountDue := (calculateProratedRent monthlyRent moveInDate).1,
           dueDate := (calculateProratedRent monthlyRent moveInDate).2,
           windowEndDate := (calculateProratedRent monthlyRent moveInDate).2.addDays 3,
           status :=
             if Date.lt today (calculateProratedRent monthlyRent moveInDate).2 then
               PaymentStatus.UPCOMING
             else if Date.le today
                 ((calculateProratedRent monthlyRent moveInDate).2.addDays 3) then
               PaymentStatus.PENDING
             else PaymentStatus.OVERDUE,
           paidDate := none,
           paymentReference := none, notes := some "Prorated rent", isManual := true,
           updatedAt := 0 }

/-- `get_frequency_months` (lines 114-122), including the unreachable
default branch. -/
def getFrequencyMonths (f : PaymentFrequency) : Nat :=
  if f = PaymentFrequency.MONTHLY then 1
  else if f = PaymentFrequency.BI_MONTHLY then 2
  else if f = PaymentFrequency.QUARTERLY then 3
  else 1

/-- The `while True` search of `calculate_next_period` (lines 138-148),
made total with explicit fuel; `calcFuel` below always suffices (see the
termination theorem). Returns `(period_start, period_end)`. -/
def nextPeriodLoop (months : Nat) (afterDate : Date) : Date → Nat → Option (Date × Date)
  | _, 0 => none
  | cps, fuel + 1 =>
    if Date.le afterDate (cps.addMonths months).prevDay then
      some (cps, (cps.addMonths months).prevDay)
    else nextPeriodLoop months afterDate (cps.addMonths months) fuel

/-- Fuel that always suffices for `nextPeriodLoop`. -/
def calcFuel (afterDate : Date) : Nat :=
  afterDate.monthIndex + 2

/-- `calculate_next_period` (lines 125-156): returns
`(period_start, period_end, due_date, window_end_date)`. -/
def calculateNextPeriod (s : PaymentSchedule) (afterDate : Date) :
    Option (Date × Date × Date × Date) :=
  match nextPeriodLoop (getFrequencyMonths s.frequency) afterDate s.startDate
      (calcFuel afterDate) with
  | none => none
  | some (periodStart, periodEnd) =>
    some (periodStart, periodEnd, ⟨periodStart.year, periodStart.month, s.dueDay⟩,
      Date.addDays ⟨periodStart.year, periodStart.month, s.dueDay⟩ s.windowDays)

/-- The payment with the greatest `period_end` in a row list (ties keep the
earlier row): models `.order_by(Payment.period_end.desc()).first()`. -/
def latestAux : List Payment → Option Payment
  | [] => none
  | p :: rest =>
    match latestAux rest with
    | none => some p
    | some q => if Date.lt p.periodEnd q.periodEnd then some q else some p

/-- The most recent payment of a schedule (lines 180-184). -/
def latestPayment (st : List Payment) (sid : Nat) : Option Payment :=
  latestAux (st.filter fun p => p.scheduleId = some sid)

/-- The candidate-period computation of `generate_payment_for_schedule`
(lines 186-207): pick the next period after the latest payment when the
latest is finalized, its period has lapsed, or `force` is set; start from
the schedule's start date when no payment exists yet. -/
def generateCandidate (s : PaymentSchedule) (st : List Payment) (today : Date)
    (force : Bool) : Option (Date × Date × Date × Date) :=
  match latestPayment st s.id with
  | some latest =>
    if latest.status = PaymentStatus.ON_TIME ∨ latest.status = PaymentStatus.LATE
        ∨ latest.status = PaymentStatus.WAIVED
        ∨ Date.lt latest.periodEnd today ∨ force = true then
      calculateNextPeriod s latest.periodEnd.nextDay
    else none
  | none => calculateNextPeriod s s.startDate

/-- `generate_payment_for_schedule` (lines 159-248). `st` is the list of
payment rows, `today` the injected `date.today()`; the created payment is
returned for the caller to append (`session.add`). -/
def generatePaymentForSchedule (s : PaymentSchedule) (st : List Payment)
    (today : Date) (force : Bool) : Option Payment :=
  if ¬ s.isActive then none
  else
    match generateCandidate s st today force with
    | none => none
    | some (periodStart, periodEnd, dueDate, windowEnd) =>
      if Date.lt (today.addMonths (getFrequencyMonths s.frequency * 2)) periodStart then
        none
      else if ∃ q ∈ st, q.scheduleId = some s.id ∧ q.periodStart = periodStart then none
      else
        some { tenantId := s.tenantId, scheduleId := some s.id,
               periodStart := periodStart, periodEnd := periodEnd,
               amountDue := s.amount, dueDate := dueDate,
               windowEndDate := windowEnd,
               status :=
                 if Date.lt today dueDate then PaymentStatus.UPCOMING
                 else if Date.le today windowEnd then PaymentStatus.PENDING
                 else PaymentStatus.OVERDUE,
               paidDate := none,
               paymentReference := none, notes := none, isManual := false,
               updatedAt := 0 }

/-- The loop body of `generate_all_due_payments` (lines 264-273): threads
the row list (uncommitted adds are visible to later queries of the same
session) and accumulates the generated payments in order. -/
def generateAllGo (tenantActive : Nat → Bool) (today : Date) :
    List PaymentSchedule → List Payment → List Payment → List Payment × List Payment
  | [], st, gen => (st, gen)
  | s :: rest, st, gen =>
    if tenantActive s.tenantId then
      match generatePaymentForSchedule s st today false with
      | some p => generateAllGo tenantActive today rest (st ++ [p]) (gen ++ [p])
      | none => generateAllGo tenantActive today rest st gen
    else generateAllGo tenantActive today rest st gen

/-- `generate_all_due_payments` (lines 251-278): `schedules` is the
schedule table (the query keeps the active ones), `tenantActive` models
`session.get(Tenant, ...)` plus the `is_active` flag. Returns the row list
after the run and the list of generated payments. -/
def generateAllDuePayments (schedules : List PaymentSchedule)
    (tenantActive : Nat → Bool) (st : List Payment) (today : Date) :
    List Payment × List Payment :=
  generateAllGo tenantActive today (schedules.filter fun s => s.isActive) st []

/-- The status recomputation of `update_payment_statuses` (lines 302-307). -/
def recomputedStatus (today : Date) (p : Payment) : PaymentStatus :=
  if Date.lt today p.dueDate then PaymentStatus.UPCOMING
  else if Date.le today p.windowEndDate then PaymentStatus.PENDING
  else PaymentStatus.OVERDUE

/-- The per-row effect of `update_payment_statuses` (lines 299-313): only
rows whose status is UPCOMING or PENDING are selected; a row is written
(status and `updated_at`) only when the recomputed status differs. -/
def updatePaymentStatus (today : Date) (now : Nat) (p : Payment) : Payment :=
  if p.status = PaymentStatus.UPCOMING ∨ p.status = PaymentStatus.PENDING then
    if recomputedStatus today p ≠ p.status then
      { p with status := recomputedStatus today p, updatedAt := now }
    else p
  else p

/-- `update_payment_statuses` (lines 281-318): returns the row list after
the run together with the number of rows updated. -/
def updatePaymentStatuses (st : List Payment) (today : Date) (now : Nat) :
    List Payment × Nat :=
  (st.map (updatePaymentStatus today now),
   (st.filter fun p =>
      decide ((p.status = PaymentStatus.UPCOMING ∨ p.status = PaymentStatus.PENDING) ∧
        recomputedStatus today p ≠ p.status)).length)

/-! ## Lemmas about the period search -/

theorem Date.not_lt_iff {a b : Date} : ¬ Date.lt a b ↔ Date.le b a := by
  obtain ⟨y1, m1, d1⟩ := a
  obtain ⟨y2, m2, d2⟩ := b
  simp only [Date.le, Date.lt, Date.mk.injEq, not_or, not_and, not_lt]
  constructor
  · intro h; omega
  · intro h; omega

theorem getFrequencyMonths_pos (f : PaymentFrequency) : 1 ≤ getFrequencyMonths f := by
  cases f <;> simp [getFrequencyMonths]

/-- The period end `d + months - 1 day` used by the search loop: it is a
valid date, its month counter is at least `monthIndex d + months - 1`, and
whenever its month counter does not exceed `monthIndex d` it is the last
day of its month. -/
theorem periodEnd_spec (d : Date) (m : Nat) (hd : d.IsValid) (hm : 1 ≤ m) :
    (d.addMonths m).prevDay.IsValid ∧
      d.monthIndex + m ≤ (d.addMonths m).prevDay.monthIndex + 1 ∧
      (d.monthIndex < (d.addMonths m).prevDay.monthIndex ∨
        (d.addMonths m).prevDay.day =
          daysInMonth (d.addMonths m).prevDay.year (d.addMonths m).prevDay.month) := by
  have hA : (d.addMonths m).IsValid := Date.addMonths_isValid m hd
  have hmi : (d.addMonths m).monthIndex = d.monthIndex + m :=
    Date.monthIndex_addMonths d m hd.2.1
  obtain ⟨hA1, hA2, hA3, hA4, hA5⟩ := hA
  simp only [Date.monthIndex] at hmi
  by_cases h1 : 2 ≤ (d.addMonths m).day
  · simp only [Date.prevDay, if_pos h1]
    refine ⟨?_, ?_, Or.inl ?_⟩
    · simp [Date.IsValid]
      omega
    · simp [Date.monthIndex]
      omega
    · simp [Date.monthIndex]
      omega
  · by_cases h2 : 2 ≤ (d.addMonths m).month
    · simp only [Date.prevDay, if_neg h1, if_pos h2]
      have hpos := daysInMonth_pos (d.addMonths m).year ((d.addMonths m).month - 1)
      refine ⟨?_, ?_, Or.inr ?_⟩
      · simp [Date.IsValid]
        omega
      · simp [Date.monthIndex]
        omega
      · simp
    · simp only [Date.prevDay, if_neg h1, if_neg h2]
      have hd1 := hd.1
      have hd2 := hd.2.1
      have hy2 : 2 ≤ (d.addMonths m).year := by omega
      refine ⟨?_, ?_, Or.inr ?_⟩
      · simp [Date.IsValid, daysInMonth]
        omega
      · simp [Date.monthIndex]
        omega
      · simp [daysInMonth]

/-- Inversion of a successful loop run: the returned period end covers
`afterDate`, equals `period_start + months - 1 day`, and the returned
period start has a day component no larger than the one the search began
at (month stepping only ever clamps the day downward). -/
theorem nextPeriodLoop_some_spec {months : Nat} {afterDate cps ps pe : Date}
    {fuel : Nat}
    (h : nextPeriodLoop months afterDate cps fuel = some (ps, pe)) :
    Date.le afterDate pe ∧ pe = (ps.addMonths months).prevDay ∧ ps.day ≤ cps.day := by
  induction fuel generalizing cps with
  | zero => simp [nextPeriodLoop] at h
  | succ k ih =>
    rw [nextPeriodLoop] at h
    split at h
    · simp only [Option.some.injEq, Prod.mk.injEq] at h
      obtain ⟨rfl, rfl⟩ := h
      exact ⟨by assumption, rfl, Nat.le_refl _⟩
    · have := ih h
      exact ⟨this.1, this.2.1, Nat.le_trans this.2.2 (Date.addMonths_day_le cps months)⟩

/-- The period start returned by the loop is valid when the date the
search began from is. -/
theorem nextPeriodLoop_some_isValid {months : Nat} {afterDate cps ps pe : Date}
    {fuel : Nat} (hcps : cps.IsValid)
    (h : nextPeriodLoop months afterDate cps fuel = some (ps, pe)) :
    ps.IsValid := by
  induction fuel generalizing cps with
  | zero => simp [nextPeriodLoop] at h
  | succ k ih =>
    rw [nextPeriodLoop] at h
    split at h
    · simp only [Option.some.injEq, Prod.mk.injEq] at h
      obtain ⟨rfl, rfl⟩ := h
      exact hcps
    · exact ih (Date.addMonths_isValid months hcps) h

/-- Termination of the period search: `calcFuel` iterations always
suffice, because each pass advances the candidate period start by
`months ≥ 1` calendar months while the loop only continues when the
period end is still before `afterDate`. -/
theorem nextPeriodLoop_isSome {months : Nat} {afterDate cps : Date} {fuel : Nat}
    (hm : 1 ≤ months) (hcps : cps.IsValid) (hafter : afterDate.IsValid)
    (hfuel1 : 1 ≤ fuel)
    (hfuel : afterDate.monthIndex + 2 ≤ cps.monthIndex + fuel) :
    (nextPeriodLoop months afterDate cps fuel).isSome := by
  induction fuel generalizing cps with
  | zero => omega
  | succ k ih =>
    rw [nextPeriodLoop]
    split
    · rfl
    · rename_i hcond
      rw [Date.not_le_iff] at hcond
      obtain ⟨hpev, hpemi, _⟩ := periodEnd_spec cps months hcps hm
      have hle : ((cps.addMonths months).prevDay).monthIndex ≤ afterDate.monthIndex :=
        Date.monthIndex_le_of_lt hpev hafter hcond
      have hmi : (cps.addMonths months).monthIndex = cps.monthIndex + months :=
        Date.monthIndex_addMonths cps months hcps.2.1
      exact ih (Date.addMonths_isValid months hcps) (by omega) (by omega)

/-- Inversion of a successful `calculate_next_period`: the period covers
`after_date`, the period end is `period_start + frequency_months - 1 day`,
the due date is the schedule's `due_day` in the period start's month, the
window end is `due_date + window_days`, and the period start's day
component never exceeds the schedule start date's. -/
theorem calculateNextPeriod_some_spec {s : PaymentSchedule} {afterDate : Date}
    {ps pe due we : Date}
    (h : calculateNextPeriod s afterDate = some (ps, pe, due, we)) :
    Date.le afterDate pe ∧
      pe = (ps.addMonths (getFrequencyMonths s.frequency)).prevDay ∧
      due = ⟨ps.year, ps.month, s.dueDay⟩ ∧
      we = Date.addDays ⟨ps.year, ps.month, s.dueDay⟩ s.windowDays ∧
      ps.day ≤ s.startDate.day := by
  unfold calculateNextPeriod at h
  split at h
  · exact absurd h (by simp)
  · rename_i ps' pe' heq
    simp only [Option.some.injEq, Prod.mk.injEq] at h
    obtain ⟨rfl, rfl, rfl, rfl⟩ := h
    obtain ⟨h1, h2, h3⟩ := nextPeriodLoop_some_spec heq
    exact ⟨h1, h2, rfl, rfl, h3⟩

/-- The period start returned by `calculate_next_period` is valid when the
schedule's start date is. -/
theorem calculateNextPeriod_some_isValid {s : PaymentSchedule} {afterDate : Date}
    {ps pe due we : Date} (hs : s.startDate.IsValid)
    (h : calculateNextPeriod s afterDate = some (ps, pe, due, we)) :
    ps.IsValid := by
  unfold calculateNextPeriod at h
  split at h
  · exact absurd h (by simp)
  · rename_i ps' pe' heq
    simp only [Option.some.injEq, Prod.mk.injEq] at h
    obtain ⟨rfl, rfl, rfl, rfl⟩ := h
    exact nextPeriodLoop_some_isValid hs heq

/-- `calculate_next_period` always succeeds with the supplied fuel. -/
theorem calculateNextPeriod_isSome (s : PaymentSchedule) (afterDate : Date)
    (hs : s.startDate.IsValid) (hafter : afterDate.IsValid) :
    (calculateNextPeriod s afterDate).isSome := by
  unfold calculateNextPeriod
  have h := @nextPeriodLoop_isSome (getFrequencyMonths s.frequency) afterDate
    s.startDate (calcFuel afterDate)
    (getFrequencyMonths_pos s.frequency) hs hafter
    (by simp [calcFuel]) (by simp only [calcFuel]; omega)
  match heq : nextPeriodLoop (getFrequencyMonths s.frequency) afterDate s.startDate
      (calcFuel afterDate) with
  | none => rw [heq] at h; simp at h
  | some (ps, pe) => simp

/-! ## Lemmas about the latest-payment query and generation -/

theorem latestAux_eq_none {l : List Payment} : latestAux l = none ↔ l = [] := by
  cases l with
  | nil => simp [latestAux]
  | cons p rest =>
    simp only [latestAux]
    constructor
    · intro h
      split at h
      · simp at h
      · split at h <;> simp at h
    · intro h; simp at h

theorem latestAux_mem {l : List Payment} {q : Payment} (h : latestAux l = some q) :
    q ∈ l := by
  induction l with
  | nil => simp [latestAux] at h
  | cons p rest ih =>
    simp only [latestAux] at h
    split at h
    · simp only [Option.some.injEq] at h
      subst h
      exact List.mem_cons_self p rest
    · rename_i r hrest
      split at h
      · simp only [Option.some.injEq] at h
        subst h
        exact List.mem_cons_of_mem p (ih hrest)
      · simp only [Option.some.injEq] at h
        subst h
        exact List.mem_cons_self p rest

theorem latestAux_max {l : List Payment} {q : Payment} (h : latestAux l = some q) :
    ∀ r ∈ l, Date.le r.periodEnd q.periodEnd := by
  induction l generalizing q with
  | nil => simp [latestAux] at h
  | cons p rest ih =>
    intro r hr
    simp only [latestAux] at h
    split at h
    · rename_i hrest
      simp only [Option.some.injEq] at h
      subst h
      rw [latestAux_eq_none] at hrest
      subst hrest
      simp at hr
      subst hr
      exact Or.inr rfl
    · rename_i m hrest
      split at h
      · rename_i hlt
        simp only [Option.some.injEq] at h
        subst h
        rcases List.mem_cons.mp hr with rfl | hr2
        · exact Or.inl hlt
        · exact ih hrest r hr2
      · rename_i hlt
        simp only [Option.some.injEq] at h
        subst h
        rcases List.mem_cons.mp hr with rfl | hr2
        · exact Or.inr rfl
        · exact Date.le_trans (ih hrest r hr2) (Date.not_lt_iff.mp hlt)

/-- Appending a payment whose `period_end` strictly dominates every
element makes it the latest. -/
theorem latestAux_append {l : List Payment} {p : Payment}
    (h : ∀ q ∈ l, Date.lt q.periodEnd p.periodEnd) :
    latestAux (l ++ [p]) = some p := by
  induction l with
  | nil => simp [latestAux]
  | cons x rest ih =>
    have hx : Date.lt x.periodEnd p.periodEnd := h x (List.mem_cons_self x rest)
    have hrest := ih fun q hq => h q (List.mem_cons_of_mem x hq)
    show latestAux (x :: (rest ++ [p])) = some p
    simp only [latestAux]
    rw [hrest]
    show (if Date.lt x.periodEnd p.periodEnd then some p else some x) = some p
    rw [if_pos hx]

/-- Appending a strictly later payment of the same schedule makes it the
schedule's latest payment. -/
theorem latestPayment_append {st : List Payment} {p : Payment} {sid : Nat}
    (hp : p.scheduleId = some sid)
    (h : ∀ q ∈ st, q.scheduleId = some sid → Date.lt q.periodEnd p.periodEnd) :
    latestPayment (st ++ [p]) sid = some p := by
  unfold latestPayment
  rw [List.filter_append]
  have hfp : List.filter (fun q => decide (q.scheduleId = some sid)) [p] = [p] := by
    simp [List.filter, hp]
  rw [hfp]
  apply latestAux_append
  intro q hq
  rw [List.mem_filter] at hq
  exact h q hq.1 (by simpa using hq.2)

/-- Inversion of a successful candidate computation: either the candidate
was derived from the latest payment (which must be finalized, lapsed, or
forced past), or no payment of the schedule exists yet and the candidate
starts from the schedule's start date. -/
theorem generateCandidate_some_spec {s : PaymentSchedule} {st : List Payment}
    {today : Date} {force : Bool} {c : Date × Date × Date × Date}
    (h : generateCandidate s st today force = some c) :
    (∃ latest, latestPayment st s.id = some latest ∧
        (latest.status = PaymentStatus.ON_TIME ∨ latest.status = PaymentStatus.LATE
          ∨ latest.status = PaymentStatus.WAIVED
          ∨ Date.lt latest.periodEnd today ∨ force = true) ∧
        calculateNextPeriod s latest.periodEnd.nextDay = some c) ∨
      (latestPayment st s.id = none ∧ calculateNextPeriod s s.startDate = some c) := by
  unfold generateCandidate at h
  split at h
  · rename_i latest hlatest
    split at h
    · rename_i hcond
      exact Or.inl ⟨latest, hlatest, hcond, h⟩
    · simp at h
  · rename_i hnone
    exact Or.inr ⟨hnone, h⟩

/-- Inversion of a successful generation: the schedule is active, the new
payment carries the schedule's reference and amount, its initial status is
computed from `today` against its own due/window dates, no payment for the
same `(schedule, period_start)` pair existed, and the period came from the
candidate computation. -/
theorem generate_some_spec {s : PaymentSchedule} {st : List Payment}
    {today : Date} {force : Bool} {p : Payment}
    (h : generatePaymentForSchedule s st today force = some p) :
    s.isActive = true ∧
      p.scheduleId = some s.id ∧
      p.tenantId = s.tenantId ∧
      p.amountDue = s.amount ∧
      p.isManual = false ∧
      p.status = (if Date.lt today p.dueDate then PaymentStatus.UPCOMING
        else if Date.le today p.windowEndDate then PaymentStatus.PENDING
        else PaymentStatus.OVERDUE) ∧
      (∀ q ∈ st, ¬(q.scheduleId = some s.id ∧ q.periodStart = p.periodStart)) ∧
      generateCandidate s st today force =
        some (p.periodStart, p.periodEnd, p.dueDate, p.windowEndDate) := by
  unfold generatePaymentForSchedule at h
  split at h
  · simp at h
  · rename_i hactive
    split at h
    · simp at h
    · rename_i ps pe due we hcand
      split at h
      · simp at h
      · split at h
        · simp at h
        · rename_i hfar hexist
          simp only [Option.some.injEq] at h
          subst h
          push_neg at hexist
          refine ⟨by simpa using hactive, rfl, rfl, rfl, rfl, rfl, ?_, hcand⟩
          intro q hq hcontra
          exact hexist q hq hcontra.1 hcontra.2

/-! ## Status lifecycle claims -/

/-- The spec's §8 example schedule: `{amount: 500000, frequency: monthly,
due_day: 5, window_days: 5, start_date: 2024-01-01}`. -/
def exampleSchedule : PaymentSchedule :=
  { id := 1, tenantId := 1, amount := 500000, frequency := PaymentFrequency.MONTHLY,
    dueDay := 5, windowDays := 5, startDate := ⟨2024, 1, 1⟩, isActive := true }

/-- The obligation generated from `exampleSchedule` on 2024-01-01. -/
def examplePayment : Payment :=
  { tenantId := 1, scheduleId := some 1, periodStart := ⟨2024, 1, 1⟩,
    periodEnd := ⟨2024, 1, 31⟩, amountDue := 500000, dueDate := ⟨2024, 1, 5⟩,
    windowEndDate := ⟨2024, 1, 10⟩, status := PaymentStatus.UPCOMING,
    paidDate := none, paymentReference := none, notes := none, isManual := false,
    updatedAt := 0 }

/-- C3. Time-derived status rule: the recomputed status is UPCOMING before
the due date, PENDING inside the payment window, and OVERDUE after the
window (for obligations whose due date does not exceed the window end —
proved below to hold for every obligation the generator creates); this same
rule gives the initial status at generation and is what
`update_payment_statuses` applies to UPCOMING/PENDING rows. On the spec's example configuration generated on
2024-01-01 the obligation is exactly `examplePayment` (period 2024-01-01 to
2024-01-31, due 2024-01-05, window end 2024-01-10, UPCOMING), and updating
on 2024-01-07 yields PENDING while updating on 2024-01-15 yields OVERDUE. -/
theorem status_rule_correct :
    (∀ (today : Date) (p : Payment),
      (Date.lt today p.dueDate → recomputedStatus today p = PaymentStatus.UPCOMING) ∧
      (Date.le p.dueDate today → Date.le today p.windowEndDate →
        recomputedStatus today p = PaymentStatus.PENDING) ∧
      (Date.le p.dueDate p.windowEndDate → Date.lt p.windowEndDate today →
        recomputedStatus today p = PaymentStatus.OVERDUE)) ∧
    (∀ (s : PaymentSchedule) (st : List Payment) (today : Date) (force : Bool)
      (p : Payment), generatePaymentForSchedule s st today force = some p →
      p.status = recomputedStatus today p ∧
        Date.le p.dueDate p.windowEndDate) ∧
    (∀ (today : Date) (now : Nat) (p : Payment),
      p.status = PaymentStatus.UPCOMING ∨ p.status = PaymentStatus.PENDING →
      (updatePaymentStatus today now p).status = recomputedStatus today p) ∧
    generatePaymentForSchedule exampleSchedule [] ⟨2024, 1, 1⟩ false =
      some examplePayment ∧
    (updatePaymentStatuses [examplePayment] ⟨2024, 1, 7⟩ 1).1 =
      [{ examplePayment with status := PaymentStatus.PENDING, updatedAt := 1 }] ∧
    (updatePaymentStatuses [examplePayment] ⟨2024, 1, 15⟩ 1).1 =
      [{ examplePayment with status := PaymentStatus.OVERDUE, updatedAt := 1 }] := by
  refine ⟨?_, ?_, ?_, by decide, by decide, by decide⟩
  · intro today p
    refine ⟨?_, ?_, ?_⟩
    · intro h
      simp [recomputedStatus, h]
    · intro h1 h2
      rw [recomputedStatus, if_neg (Date.not_lt_iff.mpr h1), if_pos h2]
    · intro h1 h2
      rw [recomputedStatus,
        if_neg (Date.not_lt_iff.mpr (Date.le_of_lt (Date.lt_of_le_of_lt h1 h2))),
        if_neg (Date.not_le_iff.mpr h2)]
  · intro s st today force p h
    constructor
    · simpa [recomputedStatus] using (generate_some_spec h).2.2.2.2.2.1
    · have hcand := (generate_some_spec h).2.2.2.2.2.2.2
      rcases generateCandidate_some_spec hcand with ⟨_, _, _, hcalc⟩ | ⟨_, hcalc⟩ <;>
        obtain ⟨_, _, hdue, hwe, _⟩ := calculateNextPeriod_some_spec hcalc <;>
        rw [hdue, hwe] <;>
        exact Date.le_addDays _ _
  · intro today now p hopen
    rw [updatePaymentStatus, if_pos hopen]
    by_cases hne : recomputedStatus today p ≠ p.status
    · rw [if_pos hne]
    · rw [if_neg hne]
      push_neg at hne
      exact hne.symm

/-- Witness for C3: the rule instantiated on the example obligation. -/
theorem status_rule_correct_witness :
    Date.lt ⟨2024, 1, 1⟩ examplePayment.dueDate ∧
      recomputedStatus ⟨2024, 1, 1⟩ examplePayment = PaymentStatus.UPCOMING :=
  ⟨by decide, (status_rule_correct.1 ⟨2024, 1, 1⟩ examplePayment).1 (by decide)⟩

/-- C4. Terminal statuses are untouched by time: `update_payment_statuses`
rewrites the store pointwise, and a row whose status is ON_TIME, LATE,
WAIVED, or VERIFYING is returned unchanged, as is an already OVERDUE row
(the scan only selects UPCOMING/PENDING rows). -/
theorem terminal_statuses_untouched (st : List Payment) (today : Date) (now : Nat) :
    (updatePaymentStatuses st today now).1 = st.map (updatePaymentStatus today now) ∧
    ∀ p ∈ st,
      ((p.status = PaymentStatus.ON_TIME ∨ p.status = PaymentStatus.LATE ∨
          p.status = PaymentStatus.WAIVED ∨ p.status = PaymentStatus.VERIFYING) →
        updatePaymentStatus today now p = p) ∧
      (p.status = PaymentStatus.OVERDUE → updatePaymentStatus today now p = p) := by
  refine ⟨rfl, ?_⟩
  intro p _
  constructor
  · intro h
    rw [updatePaymentStatus, if_neg]
    rcases h with h | h | h | h <;> simp [h]
  · intro h
    rw [updatePaymentStatus, if_neg]
    simp [h]

/-- Witness for C4: a WAIVED row and an OVERDUE row survive an update pass
unchanged. -/
theorem terminal_statuses_untouched_witness :
    ({ examplePayment with status := PaymentStatus.WAIVED } : Payment) ∈
        [({ examplePayment with status := PaymentStatus.WAIVED } : Payment)] ∧
      updatePaymentStatus ⟨2024, 6, 1⟩ 1
        { examplePayment with status := PaymentStatus.WAIVED } =
        { examplePayment with status := PaymentStatus.WAIVED } := by
  refine ⟨by decide, ?_⟩
  exact ((terminal_statuses_untouched
      [{ examplePayment with status := PaymentStatus.WAIVED }] ⟨2024, 6, 1⟩ 1).2
    { examplePayment with status := PaymentStatus.WAIVED } (by decide)).1
    (by decide)

/-- A PENDING row whose due date is still ahead of (a regressed) `today`:
the status updater moves it back to UPCOMING. -/
def pendingEarlyPayment : Payment :=
  { examplePayment with status := PaymentStatus.PENDING }

/-- Counterexample to C5 as stated: `update_payment_statuses` recomputes
the status of a scanned row purely from `today`, so with `today` =
2024-01-01 (before the due date 2024-01-05) a PENDING row is moved
backward to UPCOMING — the claimed forward monotonicity fails when `today`
regresses. -/
theorem update_moves_pending_back_to_upcoming :
    pendingEarlyPayment.status = PaymentStatus.PENDING ∧
      Date.lt (⟨2024, 1, 1⟩ : Date) pendingEarlyPayment.dueDate ∧
      (updatePaymentStatuses [pendingEarlyPayment] ⟨2024, 1, 1⟩ 1).1 =
        [{ pendingEarlyPayment with
            status := PaymentStatus.UPCOMING, updatedAt := 1 }] := by
  decide

/-- C5 (amended). `update_payment_statuses` is a one-way ratchet only for
rows outside its scan set: an OVERDUE row is never changed, but the status
of a scanned UPCOMING/PENDING row is recomputed afresh from `today`, and in
particular a PENDING row with `today < due_date` is moved back to
UPCOMING. -/
theorem update_recomputes_open_statuses (today : Date) (now : Nat) (p : Payment) :
    (p.status = PaymentStatus.OVERDUE → updatePaymentStatus today now p = p) ∧
    ((p.status = PaymentStatus.UPCOMING ∨ p.status = PaymentStatus.PENDING) →
      (updatePaymentStatus today now p).status = recomputedStatus today p) ∧
    (p.status = PaymentStatus.PENDING → Date.lt today p.dueDate →
      updatePaymentStatus today now p =
        { p with status := PaymentStatus.UPCOMING, updatedAt := now }) := by
  refine ⟨?_, ?_, ?_⟩
  · intro h
    rw [updatePaymentStatus, if_neg]
    simp [h]
  · intro hopen
    rw [updatePaymentStatus, if_pos hopen]
    by_cases hne : recomputedStatus today p ≠ p.status
    · rw [if_pos hne]
    · rw [if_neg hne]
      push_neg at hne
      exact hne.symm
  · intro hp hlt
    have hrec : recomputedStatus today p = PaymentStatus.UPCOMING := by
      simp [recomputedStatus, hlt]
    rw [updatePaymentStatus, if_pos (Or.inr hp), hrec, if_pos (by rw [hp]; simp)]

/-- Witness for the amended C5: the concrete regressed-clock row. -/
theorem update_recomputes_open_statuses_witness :
    pendingEarlyPayment.status = PaymentStatus.PENDING ∧
      Date.lt (⟨2024, 1, 1⟩ : Date) pendingEarlyPayment.dueDate ∧
      updatePaymentStatus ⟨2024, 1, 1⟩ 1 pendingEarlyPayment =
        { pendingEarlyPayment with
            status := PaymentStatus.UPCOMING, updatedAt := 1 } :=
  ⟨by decide, by decide,
    (update_recomputes_open_statuses ⟨2024, 1, 1⟩ 1 pendingEarlyPayment).2.2
      (by decide) (by decide)⟩

/-- C10. Frame property of `update_payment_statuses`: the store is mapped
pointwise; every field of a row other than `status` and `updated_at` is
preserved, and a row whose status is not UPCOMING and not PENDING is
returned entirely unchanged. -/
theorem update_all_frame_property (st : List Payment) (today : Date) (now : Nat) :
    (updatePaymentStatuses st today now).1 = st.map (updatePaymentStatus today now) ∧
    ∀ p ∈ st,
      (updatePaymentStatus today now p).tenantId = p.tenantId ∧
      (updatePaymentStatus today now p).scheduleId = p.scheduleId ∧
      (updatePaymentStatus today now p).periodStart = p.periodStart ∧
      (updatePaymentStatus today now p).periodEnd = p.periodEnd ∧
      (updatePaymentStatus today now p).amountDue = p.amountDue ∧
      (updatePaymentStatus today now p).dueDate = p.dueDate ∧
      (updatePaymentStatus today now p).windowEndDate = p.windowEndDate ∧
      (updatePaymentStatus today now p).paidDate = p.paidDate ∧
      (updatePaymentStatus today now p).paymentReference = p.paymentReference ∧
      (updatePaymentStatus today now p).notes = p.notes ∧
      (updatePaymentStatus today now p).isManual = p.isManual ∧
      (p.status ≠ PaymentStatus.UPCOMING → p.status ≠ PaymentStatus.PENDING →
        updatePaymentStatus today now p = p) := by
  refine ⟨rfl, ?_⟩
  intro p _
  have hcase : updatePaymentStatus today now p = p ∨
      updatePaymentStatus today now p =
        { p with status := recomputedStatus today p, updatedAt := now } := by
    rw [updatePaymentStatus]
    split
    · split
      · exact Or.inr rfl
      · exact Or.inl rfl
    · exact Or.inl rfl
  have hfields := hcase
  rcases hcase with h | h <;> rw [h] <;>
    refine ⟨rfl, rfl, rfl, rfl, rfl, rfl, rfl, rfl, rfl, rfl, rfl, ?_⟩ <;>
    intro h1 h2
  · rfl
  · rw [← h, updatePaymentStatus, if_neg]
    simp [h1, h2]

/-- Witness for C10: the frame on the example store. -/
theorem update_all_frame_property_witness :
    examplePayment ∈ [examplePayment] ∧
      (updatePaymentStatus ⟨2024, 1, 7⟩ 1 examplePayment).amountDue =
        examplePayment.amountDue :=
  ⟨by decide,
    ((update_all_frame_property [examplePayment] ⟨2024, 1, 7⟩ 1).2 examplePayment
      (by decide)).2.2.2.2.1⟩

/-! ## Proration and period-bound claims -/

theorem Date.le_mk {y1 m1 d1 y2 m2 d2 : Nat} (hy : y1 = y2) (hm : m1 = m2)
    (hd : d1 ≤ d2) : Date.le ⟨y1, m1, d1⟩ ⟨y2, m2, d2⟩ := by
  subst hy
  subst hm
  rcases Nat.lt_or_ge d1 d2 with h | h
  · exact Or.inl (Or.inr ⟨rfl, Or.inr ⟨rfl, h⟩⟩)
  · have : d1 = d2 := Nat.le_antisymm hd h
    subst this
    exact Or.inr rfl

/-- C7. Proration rule: a move-in on day 1–5 creates no prorated
obligation; a move-in after the 5th creates an `is_manual` obligation with
no schedule reference, amount `round(rent / days_in_month * remaining, 2)`
with `remaining = days_in_month - day + 1`, due date `move_in + 3 days`,
window end `due + 3 days`, and period end the last day of the move-in
month. On the spec's example, `prorated_charge(500000, 2024-01-15)` gives
274193.55 (within 1 of the spec's "approximately 274194"; 17 remaining
days of 31) due on 2024-01-18. -/
theorem proration_rule_correct :
    (∀ (tid : Nat) (rent : ℚ) (mid today : Date),
      (mid.day ≤ 5 → createProratedPayment tid rent mid today = none) ∧
      (5 < mid.day →
        ∃ p, createProratedPayment tid rent mid today = some p ∧
          p.amountDue = round2 (rent / (daysInMonth mid.year mid.month : ℚ) *
            ((daysInMonth mid.year mid.month - mid.day + 1 : Nat) : ℚ)) ∧
          p.dueDate = mid.addDays 3 ∧
          p.windowEndDate = p.dueDate.addDays 3 ∧
          p.periodEnd = ⟨mid.year, mid.month, daysInMonth mid.year mid.month⟩ ∧
          p.periodStart = mid ∧
          p.isManual = true ∧
          p.scheduleId = none)) ∧
    calculateProratedRent 500000 ⟨2024, 1, 15⟩ =
      ((27419355 : ℚ) / 100, ⟨2024, 1, 18⟩) ∧
    |(27419355 : ℚ) / 100 - 274194| < 1 ∧
    daysInMonth 2024 1 = 31 ∧ (31 : Nat) - 15 + 1 = 17 := by
  refine ⟨?_, ?_, by rw [abs_lt]; norm_num, by decide, by decide⟩
  · intro tid rent mid today
    constructor
    · intro h
      rw [createProratedPayment, if_pos h]
    · intro h
      rw [createProratedPayment, if_neg (by omega)]
      refine ⟨_, rfl, ?_, ?_, ?_, ?_, ?_, ?_, ?_⟩
      · simp [calculateProratedRent]
      · simp [calculateProratedRent]
      · simp [calculateProratedRent]
      · simp
      · simp
      · simp
      · simp
  · rw [calculateProratedRent]
    have hd : daysInMonth 2024 1 = 31 := by decide
    have hdt : Date.addDays ⟨2024, 1, 15⟩ 3 = ⟨2024, 1, 18⟩ := by decide
    simp only [hd, hdt, Prod.mk.injEq, and_true]
    rw [round2, round_eq]
    norm_num

/-- Witness for C7: the proration rule at the spec's example move-in. -/
theorem proration_rule_correct_witness :
    5 < (⟨2024, 1, 15⟩ : Date).day ∧
      ∃ p, createProratedPayment 7 500000 ⟨2024, 1, 15⟩ ⟨2024, 1, 15⟩ = some p ∧
        p.amountDue = round2 ((500000 : ℚ) / (daysInMonth 2024 1 : ℚ) *
          ((daysInMonth 2024 1 - 15 + 1 : Nat) : ℚ)) ∧
        p.dueDate = Date.addDays ⟨2024, 1, 15⟩ 3 ∧
        p.windowEndDate = p.dueDate.addDays 3 ∧
        p.periodEnd = ⟨2024, 1, daysInMonth 2024 1⟩ ∧
        p.periodStart = ⟨2024, 1, 15⟩ ∧
        p.isManual = true ∧
        p.scheduleId = none :=
  ⟨by decide, (proration_rule_correct.1 7 500000 ⟨2024, 1, 15⟩ ⟨2024, 1, 15⟩).2
    (by decide)⟩

/-- C9. Termination and postcondition of the period search: for every
schedule (any of the three frequencies) and every valid `after_date`, the
fuelled embedding of the `while True` loop succeeds with `calcFuel` fuel —
each pass advances the candidate by `frequency_months ≥ 1` months — and
the returned period satisfies `period_end >= after_date` with
`period_end = period_start + frequency_months - 1 day`. -/
theorem next_period_search_terminates (s : PaymentSchedule) (afterDate : Date)
    (hs : s.startDate.IsValid) (ha : afterDate.IsValid) :
    ∃ ps pe due we, calculateNextPeriod s afterDate = some (ps, pe, due, we) ∧
      Date.le afterDate pe ∧
      pe = (ps.addMonths (getFrequencyMonths s.frequency)).prevDay := by
  have h := calculateNextPeriod_isSome s afterDate hs ha
  cases heq : calculateNextPeriod s afterDate with
  | none => rw [heq] at h; simp at h
  | some c =>
    obtain ⟨ps, pe, due, we⟩ := c
    obtain ⟨h1, h2, _⟩ := calculateNextPeriod_some_spec heq
    exact ⟨ps, pe, due, we, rfl, h1, h2⟩

/-- Witness for C9: the search on the example schedule. -/
theorem next_period_search_terminates_witness :
    exampleSchedule.startDate.IsValid ∧ (⟨2024, 1, 1⟩ : Date).IsValid ∧
      ∃ ps pe due we,
        calculateNextPeriod exampleSchedule ⟨2024, 1, 1⟩ = some (ps, pe, due, we) ∧
        Date.le ⟨2024, 1, 1⟩ pe ∧
        pe = (ps.addMonths (getFrequencyMonths exampleSchedule.frequency)).prevDay :=
  ⟨by decide, by decide,
    next_period_search_terminates exampleSchedule ⟨2024, 1, 1⟩ (by decide) (by decide)⟩

/-- Counterexample to C6 as stated: a move-in on 2024-01-30 (day 30 > 5)
creates a prorated obligation whose due date 2024-02-02 (`move_in + 3`)
falls outside the period, which ends 2024-01-31 — so
`period_start <= due_date <= period_end` fails on the proration path. -/
theorem prorated_due_date_after_period_end :
    ((createProratedPayment 7 500000 ⟨2024, 1, 30⟩ ⟨2024, 1, 30⟩).map
        fun p => (p.periodStart, p.periodEnd, p.dueDate)) =
      some (⟨2024, 1, 30⟩, ⟨2024, 1, 31⟩, ⟨2024, 2, 2⟩) ∧
      ¬ Date.le (⟨2024, 2, 2⟩ : Date) ⟨2024, 1, 31⟩ := by
  exact ⟨by decide, by decide⟩

/-- C6 (amended). Position of the due date in the period: for
configuration-generated obligations the due date never exceeds the period
end, and it is at or after the period start whenever the schedule's start
day does not exceed its `due_day` (a schedule starting after its due day
yields a due date before `period_start`); for prorated obligations the due
date is always after the period start, and it is within the period
whenever the move-in day is at least 3 days before month end (later
move-ins push `move_in + 3` past the period end, as the counterexample
shows). -/
theorem due_date_period_bounds :
    (∀ (s : PaymentSchedule) (afterDate ps pe due we : Date),
      s.startDate.IsValid → 1 ≤ s.dueDay → s.dueDay ≤ 28 →
      calculateNextPeriod s afterDate = some (ps, pe, due, we) →
      Date.le due pe ∧ (s.startDate.day ≤ s.dueDay → Date.le ps due)) ∧
    (∀ (tid : Nat) (rent : ℚ) (mid today : Date) (p : Payment), mid.IsValid →
      createProratedPayment tid rent mid today = some p →
      Date.le p.periodStart p.dueDate ∧
      (mid.day + 3 ≤ daysInMonth mid.year mid.month →
        Date.le p.dueDate p.periodEnd)) := by
  constructor
  · intro s afterDate ps pe due we hsv hd1 hd28 hcalc
    obtain ⟨hafter, hpe, hdue, hwe, hday⟩ := calculateNextPeriod_some_spec hcalc
    have hpsv : ps.IsValid := calculateNextPeriod_some_isValid hsv hcalc
    have hm : 1 ≤ getFrequencyMonths s.frequency := getFrequencyMonths_pos _
    obtain ⟨hpev, hmi2, hcases⟩ :=
      periodEnd_spec ps (getFrequencyMonths s.frequency) hpsv hm
    rw [← hpe] at hpev hmi2 hcases
    have h28 := daysInMonth_pos ps.year ps.month
    have hduev : due.IsValid := by
      rw [hdue]
      obtain ⟨hv1, hv2, hv3, hv4, hv5⟩ := hpsv
      simp [Date.IsValid]
      omega
    have hmidue : due.monthIndex = ps.monthIndex := by
      rw [hdue]
      simp [Date.monthIndex]
    constructor
    · rcases Nat.lt_or_ge ps.monthIndex pe.monthIndex with hlt | hge
      · exact Date.le_of_lt (Date.lt_of_monthIndex_lt hduev hpev (by omega))
      · have heq : pe.monthIndex = ps.monthIndex := by omega
        rcases hcases with hlt2 | hdayeq
        · omega
        · obtain ⟨hy, hmn⟩ := Date.monthIndex_inj hpev hpsv heq
          have h28pe := daysInMonth_pos pe.year pe.month
          rw [hdue]
          show Date.le ⟨ps.year, ps.month, s.dueDay⟩ ⟨pe.year, pe.month, pe.day⟩
          exact Date.le_mk hy.symm hmn.symm (by omega)
    · intro hstart
      rw [hdue]
      show Date.le ⟨ps.year, ps.month, ps.day⟩ ⟨ps.year, ps.month, s.dueDay⟩
      exact Date.le_mk rfl rfl (by omega)
  · intro tid rent mid today p hmv h
    rw [createProratedPayment] at h
    split at h
    · simp at h
    · simp only [Option.some.injEq] at h
      subst h
      have hdue : (calculateProratedRent rent mid).2 = mid.addDays 3 := by
        simp [calculateProratedRent]
      constructor
      · show Date.le mid (calculateProratedRent rent mid).2
        rw [hdue]
        exact Date.le_of_lt (Date.lt_addDays mid 3 (by omega))
      · intro hroom
        show Date.le (calculateProratedRent rent mid).2
          ⟨mid.year, mid.month, daysInMonth mid.year mid.month⟩
        rw [hdue, Date.addDays_in_month 3 hmv hroom]
        show Date.le ⟨mid.year, mid.month, mid.day + 3⟩
          ⟨mid.year, mid.month, daysInMonth mid.year mid.month⟩
        exact Date.le_mk rfl rfl hroom

/-- Witness for the amended C6: the bounds on the example schedule's first
period. -/
theorem due_date_period_bounds_witness :
    exampleSchedule.startDate.IsValid ∧
      calculateNextPeriod exampleSchedule ⟨2024, 1, 1⟩ =
        some (⟨2024, 1, 1⟩, ⟨2024, 1, 31⟩, ⟨2024, 1, 5⟩, ⟨2024, 1, 10⟩) ∧
      Date.le (⟨2024, 1, 5⟩ : Date) ⟨2024, 1, 31⟩ ∧
      (exampleSchedule.startDate.day ≤ exampleSchedule.dueDay →
        Date.le (⟨2024, 1, 1⟩ : Date) ⟨2024, 1, 5⟩) :=
  ⟨by decide, by decide,
    due_date_period_bounds.1 exampleSchedule ⟨2024, 1, 1⟩ ⟨2024, 1, 1⟩ ⟨2024, 1, 31⟩
      ⟨2024, 1, 5⟩ ⟨2024, 1, 10⟩ (by decide) (by decide) (by decide) (by decide)⟩

/-! ## Idempotent generation -/

theorem Date.lt_of_lt_of_le {a b c : Date} (h1 : Date.lt a b) (h2 : Date.le b c) :
    Date.lt a c := by
  rcases h2 with h2 | rfl
  · exact Date.lt_trans h1 h2
  · exact h1

/-- C1 (amended). Idempotent generation for a current period: if
`generate_payment_for_schedule` returns a new obligation `p` whose period
has not already lapsed (`today <= p.period_end`), then an immediately
repeated call with the same `today` and the store now containing `p`
returns `none` — `p` is the schedule's latest payment, it is neither
finalized nor lapsed, so the "should generate" gate rejects. (When the
generated period has already lapsed, the second call instead generates the
following period — catch-up behaviour, see the counterexample.) -/
theorem generate_idempotent_for_current_period (s : PaymentSchedule)
    (st : List Payment) (today : Date) (p : Payment)
    (h1 : generatePaymentForSchedule s st today false = some p)
    (h2 : Date.le today p.periodEnd) :
    generatePaymentForSchedule s (st ++ [p]) today false = none := by
  obtain ⟨hactive, hsid, _, _, _, hstatus, hfresh, hcand⟩ := generate_some_spec h1
  have hlatest : latestPayment (st ++ [p]) s.id = some p := by
    apply latestPayment_append hsid
    intro q hq hqsid
    have hqmem : q ∈ st.filter fun r => decide (r.scheduleId = some s.id) := by
      rw [List.mem_filter]
      exact ⟨hq, by simp [hqsid]⟩
    rcases generateCandidate_some_spec hcand with
      ⟨latest, hl, _, hcalc⟩ | ⟨hnone, _⟩
    · have hqle : Date.le q.periodEnd latest.periodEnd := latestAux_max hl q hqmem
      have hle2 : Date.le latest.periodEnd.nextDay p.periodEnd :=
        (calculateNextPeriod_some_spec hcalc).1
      exact Date.lt_of_le_of_lt hqle
        (Date.lt_of_lt_of_le (Date.lt_nextDay latest.periodEnd) hle2)
    · unfold latestPayment at hnone
      rw [latestAux_eq_none] at hnone
      rw [hnone] at hqmem
      simp at hqmem
  have hopen : p.status = PaymentStatus.UPCOMING ∨ p.status = PaymentStatus.PENDING
      ∨ p.status = PaymentStatus.OVERDUE := by
    rw [hstatus]
    split
    · exact Or.inl rfl
    · split
      · exact Or.inr (Or.inl rfl)
      · exact Or.inr (Or.inr rfl)
  have hc : generateCandidate s (st ++ [p]) today false = none := by
    unfold generateCandidate
    rw [hlatest]
    show (if _ then _ else none) = none
    rw [if_neg]
    intro hcontra
    rcases hcontra with h | h | h | h | h
    · rcases hopen with h' | h' | h' <;> rw [h'] at h <;> exact absurd h (by decide)
    · rcases hopen with h' | h' | h' <;> rw [h'] at h <;> exact absurd h (by decide)
    · rcases hopen with h' | h' | h' <;> rw [h'] at h <;> exact absurd h (by decide)
    · exact absurd h (Date.not_lt_iff.mpr h2)
    · exact absurd h (by decide)
  rw [generatePaymentForSchedule, hc, hactive]
  simp

/-- A schedule whose periods have long lapsed by `today` = 2024-06-15. -/
def lapsedSchedule : PaymentSchedule :=
  { id := 1, tenantId := 1, amount := 500000, frequency := PaymentFrequency.MONTHLY,
    dueDay := 1, windowDays := 5, startDate := ⟨2024, 1, 1⟩, isActive := true }

/-- The January obligation the first call generates on 2024-06-15. -/
def januaryBackfill : Payment :=
  { tenantId := 1, scheduleId := some 1, periodStart := ⟨2024, 1, 1⟩,
    periodEnd := ⟨2024, 1, 31⟩, amountDue := 500000, dueDate := ⟨2024, 1, 1⟩,
    windowEndDate := ⟨2024, 1, 6⟩, status := PaymentStatus.OVERDUE,
    paidDate := none, paymentReference := none, notes := none, isManual := false,
    updatedAt := 0 }

/-- The February obligation the immediately repeated call generates. -/
def februaryBackfill : Payment :=
  { tenantId := 1, scheduleId := some 1, periodStart := ⟨2024, 2, 1⟩,
    periodEnd := ⟨2024, 2, 29⟩, amountDue := 500000, dueDate := ⟨2024, 2, 1⟩,
    windowEndDate := ⟨2024, 2, 6⟩, status := PaymentStatus.OVERDUE,
    paidDate := none, paymentReference := none, notes := none, isManual := false,
    updatedAt := 0 }

/-- Counterexample to C1 as stated: on an active schedule whose generated
period has already lapsed (started 2024-01-01, `today` = 2024-06-15), the
first call returns the January obligation and the immediately repeated
call with the store containing it returns the February obligation rather
than `none` — generation catches up one period per call instead of being
idempotent. -/
theorem generate_twice_backfills_lapsed_period :
    generatePaymentForSchedule lapsedSchedule [] ⟨2024, 6, 15⟩ false =
        some januaryBackfill ∧
      generatePaymentForSchedule lapsedSchedule [januaryBackfill] ⟨2024, 6, 15⟩
          false = some februaryBackfill :=
  ⟨by decide, by decide⟩

/-- Witness for the amended C1: the example schedule generated on its own
start date, whose period is current. -/
theorem generate_idempotent_for_current_period_witness :
    generatePaymentForSchedule exampleSchedule [] ⟨2024, 1, 1⟩ false =
        some examplePayment ∧
      Date.le (⟨2024, 1, 1⟩ : Date) examplePayment.periodEnd ∧
      generatePaymentForSchedule exampleSchedule [examplePayment] ⟨2024, 1, 1⟩
          false = none :=
  ⟨by decide, by decide,
    generate_idempotent_for_current_period exampleSchedule [] ⟨2024, 1, 1⟩
      examplePayment (by decide) (by decide)⟩

/-! ## Uniqueness invariant -/

/-- Two payment rows do not collide on the `(schedule, period_start)` key:
either one is manual (no schedule reference), or they belong to different
schedules, or they cover different periods. -/
def distinctKeys (p q : Payment) : Prop :=
  p.scheduleId = none ∨ q.scheduleId = none ∨ p.scheduleId ≠ q.scheduleId ∨
    p.periodStart ≠ q.periodStart

/-- The store invariant: at most one payment per
`(configuration_reference, period_start)` pair. -/
def UniqueSchedulePeriods (st : List Payment) : Prop :=
  List.Pairwise distinctKeys st

/-- One engine call: a single (possibly forced) per-schedule generation, or
a whole `generate_all_due_payments` batch. -/
inductive EngineOp where
  | genOne (s : PaymentSchedule) (today : Date) (force : Bool)
  | genAll (schedules : List PaymentSchedule) (tenantActive : Nat → Bool) (today : Date)

/-- Effect of one engine call on the store (`session.add` is append). -/
def applyEngineOp (st : List Payment) : EngineOp → List Payment
  | EngineOp.genOne s today force =>
    match generatePaymentForSchedule s st today force with
    | some p => st ++ [p]
    | none => st
  | EngineOp.genAll schedules tenantActive today =>
    (generateAllDuePayments schedules tenantActive st today).1

/-- Effect of a sequence of engine calls. -/
def applyEngineOps : List Payment → List EngineOp → List Payment
  | st, [] => st
  | st, op :: ops => applyEngineOps (applyEngineOp st op) ops

/-- A successful generation never collides with an existing row: the
existence pre-check guarantees the appended store keeps the invariant. -/
theorem uniq_gen_append {s : PaymentSchedule} {st : List Payment} {today : Date}
    {force : Bool} {p : Payment} (h : UniqueSchedulePeriods st)
    (hg : generatePaymentForSchedule s st today force = some p) :
    UniqueSchedulePeriods (st ++ [p]) := by
  obtain ⟨_, hsid, _, _, _, _, hfresh, _⟩ := generate_some_spec hg
  rw [UniqueSchedulePeriods, List.pairwise_append]
  refine ⟨h, List.pairwise_singleton _ _, ?_⟩
  intro q hq r hr
  rw [List.mem_singleton] at hr
  subst hr
  by_cases hqs : q.scheduleId = some s.id
  · have hne : q.periodStart ≠ r.periodStart := fun hps =>
      hfresh q hq ⟨hqs, hps⟩
    exact Or.inr (Or.inr (Or.inr hne))
  · exact Or.inr (Or.inr (Or.inl (by rw [hsid]; exact hqs)))

/-- The batch loop preserves the invariant (threading the store through
the per-schedule calls). -/
theorem generateAllGo_preserves (tenantActive : Nat → Bool) (today : Date) :
    ∀ (ss : List PaymentSchedule) (st gen : List Payment),
      UniqueSchedulePeriods st →
      UniqueSchedulePeriods (generateAllGo tenantActive today ss st gen).1 := by
  intro ss
  induction ss with
  | nil => intro st gen h; exact h
  | cons s rest ih =>
    intro st gen h
    rw [generateAllGo]
    split
    · cases hg : generatePaymentForSchedule s st today false with
      | some p => exact ih (st ++ [p]) (gen ++ [p]) (uniq_gen_append h hg)
      | none => exact ih st gen h
    · exact ih st gen h

/-- C2. Uniqueness invariant: starting from a store in which no two rows
share a `(schedule, period_start)` key, every sequence of
`generate_payment_for_schedule` calls (forced or not) and
`generate_all_due_payments` batches preserves the invariant — the
existence pre-check runs before every insertion, force mode included. -/
theorem uniqueness_invariant_preserved (ops : List EngineOp) (st : List Payment)
    (h : UniqueSchedulePeriods st) :
    UniqueSchedulePeriods (applyEngineOps st ops) := by
  induction ops generalizing st with
  | nil => exact h
  | cons op rest ih =>
    show UniqueSchedulePeriods (applyEngineOps (applyEngineOp st op) rest)
    apply ih
    cases op with
    | genOne s today force =>
      rw [applyEngineOp]
      cases hg : generatePaymentForSchedule s st today force with
      | some p => exact uniq_gen_append h hg
      | none => exact h
    | genAll schedules tenantActive today =>
      exact generateAllGo_preserves tenantActive today _ st [] h

/-- Witness for C2: a forced and unforced call sequence plus a batch,
starting from the empty store. -/
theorem uniqueness_invariant_preserved_witness :
    UniqueSchedulePeriods [] ∧
      UniqueSchedulePeriods (applyEngineOps []
        [EngineOp.genOne lapsedSchedule ⟨2024, 6, 15⟩ false,
         EngineOp.genOne lapsedSchedule ⟨2024, 6, 15⟩ true,
         EngineOp.genAll [exampleSchedule] (fun _ => true) ⟨2024, 1, 1⟩]) :=
  ⟨List.Pairwise.nil,
    uniqueness_invariant_preserved
      [EngineOp.genOne lapsedSchedule ⟨2024, 6, 15⟩ false,
       EngineOp.genOne lapsedSchedule ⟨2024, 6, 15⟩ true,
       EngineOp.genAll [exampleSchedule] (fun _ => true) ⟨2024, 1, 1⟩]
      [] List.Pairwise.nil⟩

/-! ## Failure behaviour of the batch generator -/

/-- The loop of `generate_all_due_payments` (lines 264-273) with the
per-schedule work abstracted as a fallible operation `gen` (spec §7:
persistence failures surface as exceptions). The loop body contains no
`try`/`except`, so an error is propagated as-is; only a missing or
inactive tenant is skipped with `continue`. -/
def generateAllGoE (gen : PaymentSchedule → List Payment → Except String (Option Payment))
    (tenantActive : Nat → Bool) :
    List PaymentSchedule → List Payment → List Payment →
      Except String (List Payment × List Payment)
  | [], st, acc => Except.ok (st, acc)
  | s :: rest, st, acc =>
    if tenantActive s.tenantId then
      match gen s st with
      | Except.error e => Except.error e
      | Except.ok (some p) =>
        generateAllGoE gen tenantActive rest (st ++ [p]) (acc ++ [p])
      | Except.ok none => generateAllGoE gen tenantActive rest st acc
    else generateAllGoE gen tenantActive rest st acc

/-- `generate_all_due_payments` (lines 251-278) over the fallible
per-schedule operation. -/
def generateAllDuePaymentsE
    (gen : PaymentSchedule → List Payment → Except String (Option Payment))
    (schedules : List PaymentSchedule) (tenantActive : Nat → Bool)
    (st : List Payment) : Except String (List Payment × List Payment) :=
  generateAllGoE gen tenantActive (schedules.filter fun s => s.isActive) st []

/-- When the per-schedule operation never fails, the fallible loop is
exactly the pure one. -/
theorem generateAllGoE_ok (today : Date) (tenantActive : Nat → Bool) :
    ∀ (ss : List PaymentSchedule) (st acc : List Payment),
      generateAllGoE (fun s stx => Except.ok (generatePaymentForSchedule s stx today false))
        tenantActive ss st acc =
        Except.ok (generateAllGo tenantActive today ss st acc) := by
  intro ss
  induction ss with
  | nil => intro st acc; rfl
  | cons s rest ih =>
    intro st acc
    rw [generateAllGoE, generateAllGo]
    by_cases ht : tenantActive s.tenantId
    · rw [if_pos ht, if_pos ht]
      cases hg : generatePaymentForSchedule s st today false with
      | some p => exact ih (st ++ [p]) (acc ++ [p])
      | none => exact ih st acc
    · rw [if_neg ht, if_neg ht]
      exact ih st acc

deriving instance DecidableEq for Except

/-- A store that fails while processing schedule 1 but works for the
others. -/
def failingStoreGen : PaymentSchedule → List Payment → Except String (Option Payment) :=
  fun s st =>
    if s.id = 1 then Except.error "store failure"
    else Except.ok (generatePaymentForSchedule s st ⟨2024, 1, 1⟩ false)

/-- The example schedule under a second id. -/
def scheduleTwo : PaymentSchedule :=
  { exampleSchedule with id := 2 }

/-- Counterexample to C8 as stated: with two active schedules whose
tenants are active, an error raised while processing the first aborts the
whole batch — `generate_all_due_payments` returns the error and the second
schedule's obligation (which the store would happily produce) is never
returned. The loop has no per-configuration `try`/`except`. -/
theorem generate_all_aborts_on_error :
    generateAllDuePaymentsE failingStoreGen [exampleSchedule, scheduleTwo]
        (fun _ => true) [] = Except.error "store failure" ∧
      failingStoreGen scheduleTwo [] =
        Except.ok (some { examplePayment with scheduleId := some 2 }) :=
  ⟨by decide, by decide⟩

/-- C8 (amended). Failure isolation in `generate_all_due_payments` applies
only to missing/inactive tenants, which are skipped while the rest of the
batch proceeds; an exception raised while processing a reached
configuration is not caught — it propagates, aborting the remaining
configurations (and once a prefix of the batch errors, the whole batch
errors). Error-free runs coincide with the pure loop. -/
theorem generate_all_error_propagation :
    (∀ (gen : PaymentSchedule → List Payment → Except String (Option Payment))
      (tenantActive : Nat → Bool) (s : PaymentSchedule)
      (rest : List PaymentSchedule) (st acc : List Payment),
      tenantActive s.tenantId = false →
      generateAllGoE gen tenantActive (s :: rest) st acc =
        generateAllGoE gen tenantActive rest st acc) ∧
    (∀ (gen : PaymentSchedule → List Payment → Except String (Option Payment))
      (tenantActive : Nat → Bool) (s : PaymentSchedule)
      (rest : List PaymentSchedule) (st acc : List Payment) (e : String),
      tenantActive s.tenantId = true → gen s st = Except.error e →
      generateAllGoE gen tenantActive (s :: rest) st acc = Except.error e) ∧
    (∀ (gen : PaymentSchedule → List Payment → Except String (Option Payment))
      (tenantActive : Nat → Bool) (pre post : List PaymentSchedule)
      (st acc : List Payment) (e : String),
      generateAllGoE gen tenantActive pre st acc = Except.error e →
      generateAllGoE gen tenantActive (pre ++ post) st acc = Except.error e) ∧
    (∀ (today : Date) (schedules : List PaymentSchedule)
      (tenantActive : Nat → Bool) (st : List Payment),
      generateAllDuePaymentsE
          (fun s stx => Except.ok (generatePaymentForSchedule s stx today false))
          schedules tenantActive st =
        Except.ok (generateAllDuePayments schedules tenantActive st today)) := by
  refine ⟨?_, ?_, ?_, ?_⟩
  · intro gen tenantActive s rest st acc ht
    rw [generateAllGoE, if_neg (by simp [ht])]
  · intro gen tenantActive s rest st acc e ht hg
    rw [generateAllGoE, if_pos ht, hg]
  · intro gen tenantActive pre post st acc e h
    induction pre generalizing st acc with
    | nil => simp [generateAllGoE] at h
    | cons s rest ih =>
      rw [List.cons_append]
      rw [generateAllGoE] at h ⊢
      by_cases ht : tenantActive s.tenantId
      · rw [if_pos ht] at h ⊢
        cases hg : gen s st with
        | error e2 => rw [hg] at h; exact h
        | ok r =>
          rw [hg] at h
          cases r with
          | some p => exact ih _ _ h
          | none => exact ih _ _ h
      · rw [if_neg ht] at h ⊢
        exact ih _ _ h
  · intro today schedules tenantActive st
    exact generateAllGoE_ok today tenantActive _ st []

/-- Witness for the amended C8: the failing store aborts the two-schedule
batch at its head. -/
theorem generate_all_error_propagation_witness :
    failingStoreGen exampleSchedule [] = Except.error "store failure" ∧
      generateAllGoE failingStoreGen (fun _ => true)
          [exampleSchedule, scheduleTwo] [] [] = Except.error "store failure" :=
  ⟨by decide,
    generate_all_error_propagation.2.1 failingStoreGen (fun _ => true)
      exampleSchedule [scheduleTwo] [] [] "store failure" rfl (by decide)⟩
